import Mathlib

/-!
Verification of the CSV ingestion and in-memory query engine of the
data-science-app repository, as implemented by the Svelte frontend:
the CSV line parsers of PlotlyDemo.svelte (processSingleFile) and
D3Demo.svelte (parseCSVContent), the table query functions
filterDataSimple, sortData, paginateData and the tableInfo record of the
data-table component, and the csvDataStore actions (removeFile).

JavaScript is shallowly embedded: cell values are a closed variant type
JSVal (undefined, null, string, integer number), rows are association
lists of field name to value in object-insertion order, string methods
(split, trim, toLowerCase, includes, localeCompare) are modelled as
executable functions over lists of characters, and the stable
Array.prototype.sort with a consistent comparator is modelled as a
stable insertion sort.  Numbers are modelled as integers: the only
numeric cell the frontend ever creates is the integer row id, and the
sort comparator consumes only the sign of a difference.
-/

namespace DSApp

/-- The JavaScript values that appear in parsed-CSV row objects:
undefined (absent property), null, strings, and numbers (integers
suffice for every number the embedded code creates). -/
inductive JSVal where
  | vundef : JSVal
  | vnull : JSVal
  | vstr : String → JSVal
  | vnum : Int → JSVal
deriving DecidableEq, Repr

/-- A parsed row: a JavaScript object as an association list of
property name to value, in insertion order.  Rows are built from object
literals by property assignment (setEntry below), which keeps keys
pairwise distinct by overwriting an existing property in place. -/
abbrev Row := List (String × JSVal)

/-- Property read row[col]: the first entry with the given key, or
undefined when the key is absent. -/
def jsGet (row : Row) (col : String) : JSVal :=
  match row.find? (fun e => e.1 == col) with
  | some e => e.2
  | none => JSVal.vundef

/-- The JavaScript loose test v == null, true exactly for null and
undefined. -/
def isNullish : JSVal → Bool
  | JSVal.vundef => true
  | JSVal.vnull => true
  | _ => false

/-- JavaScript falsiness of the values in our model: undefined, null,
the empty string and the number 0 (NaN cannot arise in the integer
model). -/
def jsFalsy : JSVal → Bool
  | JSVal.vundef => true
  | JSVal.vnull => true
  | JSVal.vstr s => s == ""
  | JSVal.vnum n => n == 0

/-- The JavaScript String(v) conversion. -/
def jsToString : JSVal → String
  | JSVal.vundef => "undefined"
  | JSVal.vnull => "null"
  | JSVal.vstr s => s
  | JSVal.vnum n => toString n

/-- The expression String(v || ""): falsy values are replaced by the
empty string before conversion.  This is the cell coercion used by the
column filters of filterDataSimple. -/
def jsStrOrEmpty (v : JSVal) : String :=
  if jsFalsy v then "" else jsToString v

/-- ASCII lowercasing of a character list, the model of
String.prototype.toLowerCase on the ASCII data this code handles. -/
def lowerChars (l : List Char) : List Char :=
  l.map Char.toLower

/-- String.prototype.toLowerCase. -/
def lowerStr (s : String) : String :=
  String.mk (lowerChars s.data)

/-- Whitespace trim from both ends of a character list. -/
def wsTrim (l : List Char) : List Char :=
  ((l.dropWhile Char.isWhitespace).reverse.dropWhile Char.isWhitespace).reverse

/-- String.prototype.trim. -/
def jsTrim (s : String) : String :=
  String.mk (wsTrim s.data)

/-- Does the second list start with the first list? -/
def hasPre : List Char → List Char → Bool
  | [], _ => true
  | _ :: _, [] => false
  | a :: as, b :: bs => a == b && hasPre as bs

/-- Does the needle occur contiguously inside the haystack? -/
def hasSub (needle : List Char) : List Char → Bool
  | [] => hasPre needle []
  | b :: bs => hasPre needle (b :: bs) || hasSub needle bs

/-- String.prototype.includes: hay.includes(needle). -/
def strIncludes (hay needle : String) : Bool :=
  hasSub needle.data hay.data

/-- Lexicographic comparison of character lists by code point. -/
def ltChars : List Char → List Char → Bool
  | [], [] => false
  | [], _ :: _ => true
  | _ :: _, [] => false
  | a :: as, b :: bs => if a < b then true else if b < a then false else ltChars as bs

/-- String.prototype.localeCompare restricted to its sign, modelled as
code-point lexicographic comparison (the two coincide on the ASCII data
this code handles). -/
def localeCompare (a b : String) : Int :=
  if ltChars a.data b.data then -1 else if ltChars b.data a.data then 1 else 0

/-- String.prototype.split with a one-character separator: splits at
every occurrence of the separator, keeping empty pieces, so the result
always has (number of separators + 1) pieces. -/
def splitOnChar (sep : Char) : List Char → List (List Char)
  | [] => [[]]
  | c :: cs =>
    match splitOnChar sep cs with
    | [] => [[]]
    | r :: rs => if c == sep then [] :: r :: rs else (c :: r) :: rs

/-- Joining pieces back with the separator, the inverse of splitOnChar. -/
def joinOnChar (sep : Char) : List (List Char) → List Char
  | [] => []
  | [x] => x
  | x :: y :: rest => x ++ sep :: joinOnChar sep (y :: rest)

/-- content.split(𝗇𝖾𝗐𝗅𝗂𝗇𝖾) as used by both frontend parsers. -/
def splitNL (content : String) : List String :=
  (splitOnChar '\n' content.data).map String.mk

/-- line.split(",") as used by both frontend parsers: a plain split on
every comma, with no quote handling. -/
def splitOnComma (line : String) : List String :=
  (splitOnChar ',' line.data).map String.mk

/-- JavaScript object property assignment row[k] = v: an existing
property with that key is overwritten in place, keeping its original
insertion position; a new key is appended.  A later assignment to a
duplicate header therefore overwrites the earlier value, exactly as in
the source, and a row built up from an object literal keeps pairwise
distinct keys. -/
def setEntry (k : String) (v : JSVal) : Row → Row
  | [] => [(k, v)]
  | e :: rest => if e.1 == k then (k, v) :: rest else e :: setEntry k v rest

/-- The value assigned for header index i: colIndex < values.length ?
values[colIndex].trim() : null. -/
def fieldVal (values : List String) (i : Nat) : JSVal :=
  match values[i]? with
  | some v => JSVal.vstr (jsTrim v)
  | none => JSVal.vnull

/-- The loop columns.forEach((col, colIndex) => obj[col.id] = colIndex <
values.length ? values[colIndex].trim() : null) shared by both parsers:
walks the declared header names with a running index and assigns each
field value into the row object by property assignment.  Fields of the
line beyond the last header index are never read. -/
def buildRowAux (values : List String) : Nat → List String → Row → Row
  | _, [], row => row
  | i, h :: hs, row => buildRowAux values (i + 1) hs (setEntry h (fieldVal values i) row)

/-- One data row of parseCSVContent (D3Demo.svelte): split the line on
commas and assign the positionally matched trimmed values into an
initially empty object. -/
def parseRow (headers : List String) (line : String) : Row :=
  buildRowAux (splitOnComma line) 0 headers []

/-- parseCSVContent of D3Demo.svelte: split the content on newlines,
drop blank lines, read the header names from the first line, and parse
every remaining line positionally against those headers. -/
def parseCSVContent (content : String) : List Row :=
  let lines := (splitNL content).filter (fun l => jsTrim l != "")
  if lines.length < 2 then []
  else
    let headers := (splitOnComma (lines.headD "")).map jsTrim
    (lines.drop 1).map (fun line => parseRow headers line)

/-- The nonblank lines of the content, as computed by processSingleFile
of PlotlyDemo.svelte: contentLines = content.split(newline).filter(line
=> line.trim()). -/
def contentLines (content : String) : List String :=
  (splitNL content).filter (fun l => jsTrim l != "")

/-- The quality report row count of processSingleFile
(PlotlyDemo.svelte): valid_rows = fileContent.content.split(newline)
.length - 1, computed on the raw split before any blank-line
filtering.  The split result is never empty, so natural subtraction is
exact. -/
def validRows (content : String) : Nat :=
  (splitNL content).length - 1

/-- One data row of processSingleFile (PlotlyDemo.svelte): the object
literal starts with an id field holding the row index, and the declared
column ids are then assigned positionally matched trimmed values, null
when the line has too few fields. -/
def plotlyParseRow (colIds : List String) (idx : Nat) (line : String) : Row :=
  buildRowAux (splitOnComma line) 0 colIds [("id", JSVal.vnum idx)]

/-- dataRows.map((row, index) => ...) with an explicit running index. -/
def plotlyRowsAux (colIds : List String) : Nat → List String → List Row
  | _, [] => []
  | i, line :: rest => plotlyParseRow colIds i line :: plotlyRowsAux colIds (i + 1) rest

/-- The parsedData array built by processSingleFile (PlotlyDemo.svelte):
nonblank lines, first line dropped as header, remaining lines parsed
positionally against the backend-supplied column ids. -/
def plotlyParsedData (content : String) (colIds : List String) : List Row :=
  plotlyRowsAux colIds 0 ((contentLines content).drop 1)

/-- The entries of the columnFilters map whose value is truthy after
trimming, as computed by filterDataSimple: columnFilterEntries =
Array.from(columnFilters.entries()).filter(([_, value]) =>
value?.trim()).  The map is modelled as an association list in
insertion order. -/
def activeEntries (columnFilters : List (String × String)) : List (String × String) :=
  columnFilters.filter (fun e => jsTrim e.2 != "")

/-- The row predicate of filterDataSimple: the global filter must match
some value of the row (case-insensitive substring), and every active
column filter must match the coerced cell of its column. -/
def rowMatches (hasGlobal : Bool) (globalLower : String)
    (entries : List (String × String)) (row : Row) : Bool :=
  (if hasGlobal then
    (row.map (fun e => e.2)).any
      (fun v => strIncludes (lowerStr (jsToString v)) globalLower)
  else true)
  && entries.all (fun e =>
      strIncludes (lowerStr (jsStrOrEmpty (jsGet row e.1))) (lowerStr e.2))

/-- filterDataSimple of the data-table component: returns [] on empty
data, returns the data unchanged when no filter is active, and
otherwise keeps the rows matching the global filter and all active
column filters. -/
def filterDataSimple (data : List Row) (globalFilter : String)
    (columnFilters : List (String × String)) : List Row :=
  if data.isEmpty then []
  else
    let globalLower := lowerStr (jsTrim globalFilter)
    let hasGlobal := globalLower != ""
    let entries := activeEntries columnFilters
    if !hasGlobal && entries.isEmpty then data
    else data.filter (rowMatches hasGlobal globalLower entries)

/-- The comparison variable of the sortData comparator: numeric
difference when both runtime values are numbers, localeCompare of the
String conversions otherwise. -/
def cmpVals (aVal bVal : JSVal) : Int :=
  match aVal, bVal with
  | JSVal.vnum a, JSVal.vnum b => a - b
  | a, b => localeCompare (jsToString a) (jsToString b)

/-- The comparator passed to sort by sortData: null and undefined cells
compare equal to each other, a nullish cell returns -1 against a
non-nullish one when the direction is asc and 1 when it is desc, and
two non-nullish cells compare by cmpVals, negated for desc. -/
def comparator (col dir : String) (a b : Row) : Int :=
  let aVal := jsGet a col
  let bVal := jsGet b col
  if isNullish aVal && isNullish bVal then 0
  else if isNullish aVal then (if dir == "asc" then -1 else 1)
  else if isNullish bVal then (if dir == "asc" then 1 else -1)
  else
    let comparison := cmpVals aVal bVal
    if dir == "asc" then comparison else -comparison

/-- Stable insertion of x into a sorted list: x is placed before the
first element y with cmp x y ≤ 0, hence after every earlier element
that compares equal to it. -/
def insertLe {α : Type} (le : α → α → Bool) (x : α) : List α → List α
  | [] => [x]
  | y :: ys => if le x y then x :: y :: ys else y :: insertLe le x ys

/-- Stable sort by a consistent comparator, the model of the ECMAScript
Array.prototype.sort (stable since ES2019). -/
def stableSort {α : Type} (le : α → α → Bool) : List α → List α
  | [] => []
  | x :: xs => insertLe le x (stableSort le xs)

/-- sortData of the data-table component: returns the data unchanged
when no sort column is designated, otherwise sorts a spread copy of the
array with the comparator. -/
def sortData (data : List Row) (col dir : String) : List Row :=
  if col == "" then data
  else stableSort (fun a b => comparator col dir a b ≤ 0) data

/-- paginateData of the data-table component: data.slice((page - 1) *
size, (page - 1) * size + size), for the 1-indexed pages the component
produces. -/
def paginateData (data : List Row) (page size : Nat) : List Row :=
  (data.drop ((page - 1) * size)).take size

/-- Math.ceil(t / p) on the exactly-representable sizes this code
meets. -/
def totalPagesCalc (t p : Nat) : Nat :=
  ⌈(t : ℚ) / (p : ℚ)⌉₊

/-- The reactive tableInfo record of the data-table component. -/
structure TableInfo where
  totalRows : Nat
  filteredRows : Nat
  currentPage : Nat
  totalPages : Nat
  startRow : Nat
  endRow : Nat
deriving DecidableEq, Repr

/-- The tableInfo expression of the data-table component, computed from
the parsed data, the filtered data, the current page and the page
size. -/
def mkTableInfo (parsed filtered : List Row) (page size : Nat) : TableInfo :=
  { totalRows := parsed.length
    filteredRows := filtered.length
    currentPage := page
    totalPages := totalPagesCalc filtered.length size
    startRow := (page - 1) * size + 1
    endRow := min (page * size) filtered.length }

/-- The call sortData(data, col, dir) as a state transformer on the
callers array variable: the source sorts the spread copy [...data], so
the array the caller passed is left untouched and the sorted copy is
returned.  The first component is the callers array after the call, the
second the returned view. -/
def sortDataCall (data : List Row) (col dir : String) : List Row × List Row :=
  if col == "" then (data, data)
  else
    let copy := data
    let sorted := stableSort (fun a b => comparator col dir a b ≤ 0) copy
    (data, sorted)

/-- The call filterDataSimple(...) as a state transformer on the
callers array variable: Array.prototype.filter allocates a fresh array
and never writes the receiver. -/
def filterDataSimpleCall (data : List Row) (globalFilter : String)
    (columnFilters : List (String × String)) : List Row × List Row :=
  (data, filterDataSimple data globalFilter columnFilters)

/-- The call paginateData(...) as a state transformer on the callers
array variable: Array.prototype.slice allocates a fresh array and never
writes the receiver. -/
def paginateDataCall (data : List Row) (page size : Nat) : List Row × List Row :=
  (data, paginateData data page size)

/-- One entry of the files array of csvDataStore; only the id takes
part in the behaviour the claims are about. -/
structure FileRec where
  id : String
deriving DecidableEq, Repr

/-- A column definition as stored in the columns map of csvDataStore. -/
structure ColumnDef where
  cid : String
  cname : String
  ctype : String
deriving DecidableEq, Repr

/-- The per-file statistics payload of csvDataStore (the fields beyond
the quality-report row count are irrelevant to the claims and
omitted). -/
structure FileStats where
  qualityValidRows : Nat
deriving DecidableEq, Repr

/-- Map.prototype.get of a map modelled as an association list with
pairwise distinct keys. -/
def mapGet {β : Type} (m : List (String × β)) (k : String) : Option β :=
  (m.find? (fun e => e.1 == k)).map (fun e => e.2)

/-- Map.prototype.delete of a map modelled as an association list with
pairwise distinct keys. -/
def mapDelete {β : Type} (m : List (String × β)) (k : String) : List (String × β) :=
  m.filter (fun e => e.1 != k)

/-- The csvDataStore state: the files array, the current file id, and
the per-file maps of parsed data, filtered data, columns, filters, sort
configuration, selected rows and statistics. -/
structure CsvDataStore where
  files : List FileRec
  currentFileId : Option String
  parsedData : List (String × List Row)
  filteredData : List (String × List Row)
  columns : List (String × List ColumnDef)
  filters : List (String × List (String × String))
  sortConfig : List (String × (String × String))
  selectedRows : List (String × List Nat)
  fileStats : List (String × FileStats)

/-- csvDataActions.removeFile: drops the file from the files array,
deletes every per-file map entry for the id, and moves currentFileId to
the first remaining file (or null) when the removed file was current. -/
def removeFile (s : CsvDataStore) (fileId : String) : CsvDataStore :=
  let files := s.files.filter (fun f => f.id != fileId)
  { files := files
    currentFileId :=
      if s.currentFileId == some fileId then
        match files with
        | [] => none
        | f :: _ => some f.id
      else s.currentFileId
    parsedData := mapDelete s.parsedData fileId
    filteredData := mapDelete s.filteredData fileId
    columns := mapDelete s.columns fileId
    filters := mapDelete s.filters fileId
    sortConfig := mapDelete s.sortConfig fileId
    selectedRows := mapDelete s.selectedRows fileId
    fileStats := mapDelete s.fileStats fileId }

/-- A query against a dataset handle, as the data-table component
performs it: csvDataStore.parsedData.get(fileId).  The none result is
the not-found condition (the component then renders its no-data empty
state). -/
def queryDataset (s : CsvDataStore) (handle : String) : Option (List Row) :=
  mapGet s.parsedData handle

/-- The inferred column types of the specification. -/
inductive ColType where
  | integer : ColType
  | float : ColType
  | boolean : ColType
  | date : ColType
  | str : ColType
deriving DecidableEq, Repr

/-- Is the list a nonempty run of decimal digits? -/
def digitsNonempty (l : List Char) : Bool :=
  !l.isEmpty && l.all Char.isDigit

/-- Strip one optional leading sign. -/
def stripSign : List Char → List Char
  | '-' :: rest => rest
  | '+' :: rest => rest
  | l => l

/-- An optionally signed nonempty digit run. -/
def isIntLit (s : String) : Bool :=
  digitsNonempty (stripSign s.data)

/-- An optionally signed decimal numeral with at most one point and a
nonempty digit run on each side of it. -/
def isFloatLit (s : String) : Bool :=
  match splitOnChar '.' (stripSign s.data) with
  | [a] => digitsNonempty a
  | [a, b] => digitsNonempty a && digitsNonempty b
  | _ => false

/-- Membership in the boolean token set of the specification,
case-insensitive. -/
def isBoolLit (s : String) : Bool :=
  let l := lowerStr s
  l == "true" || l == "false" || l == "yes" || l == "no" || l == "1" || l == "0"

/-- A date in the pattern of four digits, dash, two digits, dash, two
digits, a representative of the fixed date pattern set of the
specification. -/
def isDateLit (s : String) : Bool :=
  match splitOnChar '-' s.data with
  | [y, m, d] =>
    digitsNonempty y && digitsNonempty m && digitsNonempty d
    && y.length == 4 && m.length == 2 && d.length == 2
  | _ => false

/-- Modelled from the spec: the Type Inferencer of section 4.3 lives in
the Rust data-science crate, which is absent from the sources; only its
call site (invoke analyze_csv_columns) appears in the frontend.  Faithful
to the specification wording: classify the non-null sampled values of a
column as Integer, else Float, else Boolean, else Date, else String,
with an all-null column inferred as String. -/
def inferColType (samples : List String) : ColType :=
  if samples.isEmpty then ColType.str
  else if samples.all isIntLit then ColType.integer
  else if samples.all isFloatLit then ColType.float
  else if samples.all isBoolLit then ColType.boolean
  else if samples.all isDateLit then ColType.date
  else ColType.str

/-- Orderings in which every element satisfying p precedes every element
not satisfying it: whenever a later element satisfies p, every earlier
element does too. -/
def pFirst {α : Type} (p : α → Bool) (l : List α) : Prop :=
  l.Pairwise (fun a b => p b = true → p a = true)

end DSApp

namespace DSApp

/-- Unfolding filterDataSimple to its branch structure. -/
theorem filterDataSimple_eq (data : List Row) (gf : String)
    (cf : List (String × String)) :
    filterDataSimple data gf cf =
      if data.isEmpty then []
      else if (!(lowerStr (jsTrim gf) != "") && (activeEntries cf).isEmpty) then data
      else data.filter
        (rowMatches (lowerStr (jsTrim gf) != "") (lowerStr (jsTrim gf)) (activeEntries cf)) :=
  rfl

/-- An empty haystack includes only the empty needle. -/
theorem strIncludes_empty_left (s : String) (h : s ≠ "") :
    strIncludes "" s = false := by
  cases s with
  | mk l =>
    cases l with
    | nil => exact absurd rfl h
    | cons c cs => rfl

/-- Lowercasing never empties a nonempty string. -/
theorem lowerStr_ne_empty (s : String) (h : s ≠ "") : lowerStr s ≠ "" := by
  cases s with
  | mk l =>
    cases l with
    | nil => exact absurd rfl h
    | cons c cs =>
      intro heq
      have : (Char.toLower c :: lowerChars cs) = [] := congrArg String.data heq
      exact List.noConfusion this

/-- A string with a nonempty trim is itself nonempty. -/
theorem ne_empty_of_jsTrim_ne (s : String) (h : jsTrim s ≠ "") : s ≠ "" := by
  intro hs
  rw [hs] at h
  exact h rfl

/-- A filter entry with a truthy trimmed value survives into the active
entries. -/
theorem mem_activeEntries (cf : List (String × String)) (col fv : String)
    (hmem : (col, fv) ∈ cf) (hfv : jsTrim fv ≠ "") :
    (col, fv) ∈ activeEntries cf := by
  refine List.mem_filter.2 ⟨hmem, ?_⟩
  simpa [bne_iff_ne] using hfv

/-- A row that passes rowMatches satisfies every active column
filter. -/
theorem rowMatches_entry (hg : Bool) (gl : String)
    (entries : List (String × String)) (row : Row) (col fv : String)
    (hm : rowMatches hg gl entries row = true) (he : (col, fv) ∈ entries) :
    strIncludes (lowerStr (jsStrOrEmpty (jsGet row col))) (lowerStr fv) = true := by
  unfold rowMatches at hm
  rw [Bool.and_eq_true] at hm
  have h2 := (List.all_eq_true.1 hm.2) (col, fv) he
  exact h2

/-- A row whose cell coerces to the empty string fails rowMatches
whenever an active entry with a nonblank filter value targets that
column. -/
theorem rowMatches_false_of_empty_cell (hg : Bool) (gl : String)
    (entries : List (String × String)) (row : Row) (col fv : String)
    (he : (col, fv) ∈ entries) (hfv : jsTrim fv ≠ "")
    (hcell : jsStrOrEmpty (jsGet row col) = "") :
    rowMatches hg gl entries row = false := by
  by_contra hne
  have hm : rowMatches hg gl entries row = true := by
    revert hne
    cases rowMatches hg gl entries row <;> simp
  have hincl := rowMatches_entry hg gl entries row col fv hm he
  rw [hcell] at hincl
  have hlow : lowerStr fv ≠ "" := lowerStr_ne_empty fv (ne_empty_of_jsTrim_ne fv hfv)
  have : strIncludes (lowerStr "") (lowerStr fv) = false := strIncludes_empty_left _ hlow
  rw [this] at hincl
  exact Bool.noConfusion hincl

/-- C10: a cell that is null, undefined or the empty string is coerced
to the empty string before matching, so a row never survives
filterDataSimple when any active nonblank column filter targets such a
cell. -/
theorem nullish_cell_row_excluded (data : List Row) (gf : String)
    (cf : List (String × String)) (row : Row) (col fv : String)
    (hmem : (col, fv) ∈ cf) (hfv : jsTrim fv ≠ "")
    (hcell : jsGet row col = JSVal.vnull ∨ jsGet row col = JSVal.vundef ∨
      jsGet row col = JSVal.vstr "") :
    row ∉ filterDataSimple data gf cf := by
  intro hin
  rw [filterDataSimple_eq] at hin
  by_cases hd : data.isEmpty = true
  · rw [if_pos hd] at hin
    exact List.not_mem_nil row hin
  · rw [if_neg hd] at hin
    have hent : (col, fv) ∈ activeEntries cf := mem_activeEntries cf col fv hmem hfv
    have hne : (activeEntries cf).isEmpty = false := by
      cases h : activeEntries cf with
      | nil => rw [h] at hent; exact absurd hent (List.not_mem_nil _)
      | cons a l => rfl
    rw [hne, Bool.and_false, if_neg Bool.false_ne_true] at hin
    have hm := (List.mem_filter.1 hin).2
    have hempty : jsStrOrEmpty (jsGet row col) = "" := by
      rcases hcell with h | h | h <;> rw [h] <;> rfl
    have := rowMatches_false_of_empty_cell (lowerStr (jsTrim gf) != "")
      (lowerStr (jsTrim gf)) (activeEntries cf) row col fv hent hfv hempty
    rw [this] at hm
    exact Bool.noConfusion hm

/-- Witness for C10 at a concrete store: a row whose cell for the
filtered column is null is excluded. -/
theorem nullish_cell_row_excluded_witness :
    [("a", JSVal.vnull)] ∉
      filterDataSimple [[("a", JSVal.vstr "x")], [("a", JSVal.vnull)]] "" [("a", "x")] :=
  nullish_cell_row_excluded
    [[("a", JSVal.vstr "x")], [("a", JSVal.vnull)]] "" [("a", "x")]
    [("a", JSVal.vnull)] "a" "x" (by decide) (by decide) (Or.inl (by decide))

/-- C3 counterexample: a query whose column filters name a column
absent from the dataset does not produce any error value: evaluation
returns a plain row set (here the empty one, every row having been
filtered out), the filter being evaluated against the empty string
rather than rejected. -/
theorem missing_column_returns_rowset :
    filterDataSimple [[("a", JSVal.vstr "x")]] "" [("nope", "x")] = [] := by
  decide

/-- C3 amended: a nonblank filter on a column that no row possesses
evaluates against the empty string for every row, so the result is the
empty row set and no error condition of any kind arises. -/
theorem missing_column_filters_all (data : List Row) (gf : String)
    (cf : List (String × String)) (col fv : String)
    (hmem : (col, fv) ∈ cf) (hfv : jsTrim fv ≠ "")
    (hcol : ∀ row ∈ data, jsGet row col = JSVal.vundef) :
    filterDataSimple data gf cf = [] := by
  rw [filterDataSimple_eq]
  by_cases hd : data.isEmpty = true
  · rw [if_pos hd]
  · rw [if_neg hd]
    have hent : (col, fv) ∈ activeEntries cf := mem_activeEntries cf col fv hmem hfv
    have hne : (activeEntries cf).isEmpty = false := by
      cases h : activeEntries cf with
      | nil => rw [h] at hent; exact absurd hent (List.not_mem_nil _)
      | cons a l => rfl
    rw [hne, Bool.and_false, if_neg Bool.false_ne_true]
    refine List.filter_eq_nil_iff.2 ?_
    intro row hrow
    have hempty : jsStrOrEmpty (jsGet row col) = "" := by
      rw [hcol row hrow]; rfl
    rw [rowMatches_false_of_empty_cell _ _ _ row col fv hent hfv hempty]
    exact Bool.noConfusion

/-- Witness for the amended C3 at a concrete dataset. -/
theorem missing_column_filters_all_witness :
    filterDataSimple [[("a", JSVal.vstr "x")]] "" [("nope", "x")] = [] :=
  missing_column_filters_all [[("a", JSVal.vstr "x")]] "" [("nope", "x")]
    "nope" "x" (by decide) (by decide) (by decide)

/-- Deleting a key from a map makes lookups of that key miss. -/
theorem mapGet_mapDelete {β : Type} (m : List (String × β)) (k : String) :
    mapGet (mapDelete m k) k = none := by
  unfold mapGet
  have : (mapDelete m k).find? (fun e => e.1 == k) = none := by
    refine List.find?_eq_none.2 ?_
    intro e he
    have hp := (List.mem_filter.1 he).2
    simpa [bne_iff_ne] using hp
  rw [this]
  rfl

/-- C5: removeFile deletes the parsed data, filtered data, column
schema, filters, sort configuration, selected rows and statistics of
the handle, so any subsequent query of the handle yields the not-found
condition (none), never a cached row set. -/
theorem removeFile_invalidates_handle (s : CsvDataStore) (h : String) :
    queryDataset (removeFile s h) h = none ∧
    mapGet (removeFile s h).parsedData h = none ∧
    mapGet (removeFile s h).filteredData h = none ∧
    mapGet (removeFile s h).columns h = none ∧
    mapGet (removeFile s h).filters h = none ∧
    mapGet (removeFile s h).sortConfig h = none ∧
    mapGet (removeFile s h).selectedRows h = none ∧
    mapGet (removeFile s h).fileStats h = none :=
  ⟨mapGet_mapDelete s.parsedData h, mapGet_mapDelete s.parsedData h,
    mapGet_mapDelete s.filteredData h, mapGet_mapDelete s.columns h,
    mapGet_mapDelete s.filters h, mapGet_mapDelete s.sortConfig h,
    mapGet_mapDelete s.selectedRows h, mapGet_mapDelete s.fileStats h⟩

end DSApp

namespace DSApp

/-- Everything in an insertion result is the inserted element or an
element of the original list. -/
theorem mem_insertLe {α : Type} (le : α → α → Bool) (x : α) :
    ∀ (l : List α) (z : α), z ∈ insertLe le x l → z = x ∨ z ∈ l := by
  intro l
  induction l with
  | nil =>
    intro z hz
    rw [insertLe] at hz
    rcases List.mem_singleton.1 hz with rfl
    exact Or.inl rfl
  | cons y ys ih =>
    intro z hz
    rw [insertLe] at hz
    by_cases hle : le x y = true
    · rw [if_pos hle] at hz
      rcases List.mem_cons.1 hz with rfl | hz2
      · exact Or.inl rfl
      · exact Or.inr hz2
    · rw [if_neg hle] at hz
      rcases List.mem_cons.1 hz with rfl | hz2
      · exact Or.inr (List.mem_cons_self _ _)
      · rcases ih z hz2 with h | h
        · exact Or.inl h
        · exact Or.inr (List.mem_cons_of_mem _ h)

/-- Insertion preserves the p-first ordering when the comparator always
places p-elements before non-p-elements: an element satisfying p
compares at or before one that does not, and never the other way
round. -/
theorem insertLe_pFirst {α : Type} (p : α → Bool) (le : α → α → Bool)
    (hT : ∀ x y, p x = true → p y = false → le x y = true)
    (hF : ∀ x y, p x = false → p y = true → le x y = false)
    (x : α) : ∀ l : List α, pFirst p l → pFirst p (insertLe le x l) := by
  intro l
  induction l with
  | nil =>
    intro _
    rw [insertLe]
    exact List.pairwise_cons.2 ⟨fun z hz => absurd hz (List.not_mem_nil z), List.Pairwise.nil⟩
  | cons y ys ih =>
    intro hp
    obtain ⟨hy, hys⟩ := List.pairwise_cons.1 hp
    rw [insertLe]
    by_cases hle : le x y = true
    · rw [if_pos hle]
      refine List.Pairwise.cons ?_ hp
      intro z hz hpz
      by_cases hpx : p x = true
      · exact hpx
      · exfalso
        have hpx2 : p x = false := by
          revert hpx; cases p x <;> simp
        rcases List.mem_cons.1 hz with rfl | hz2
        · rw [hF x z hpx2 hpz] at hle; exact Bool.noConfusion hle
        · have hpy : p y = true := hy z hz2 hpz
          rw [hF x y hpx2 hpy] at hle
          exact Bool.noConfusion hle
    · rw [if_neg hle]
      have hle2 : le x y = false := by
        revert hle; cases le x y <;> simp
      refine List.Pairwise.cons ?_ (ih hys)
      intro z hz hpz
      rcases mem_insertLe le x ys z hz with rfl | hz2
      · by_cases hpy : p y = true
        · exact hpy
        · have hpy2 : p y = false := by
            revert hpy; cases p y <;> simp
          rw [hT z y hpz hpy2] at hle2
          exact Bool.noConfusion hle2
      · exact hy z hz2 hpz

/-- The stable sort orders p-elements before non-p-elements whenever
the comparator does. -/
theorem stableSort_pFirst {α : Type} (p : α → Bool) (le : α → α → Bool)
    (hT : ∀ x y, p x = true → p y = false → le x y = true)
    (hF : ∀ x y, p x = false → p y = true → le x y = false) :
    ∀ l : List α, pFirst p (stableSort le l) := by
  intro l
  induction l with
  | nil => exact List.Pairwise.nil
  | cons x xs ih =>
    rw [stableSort]
    exact insertLe_pFirst p le hT hF x (stableSort le xs) ih

/-- The ascending comparator sends a nullish cell before a non-nullish
one. -/
theorem comparator_asc_null_first (col : String) (x y : Row)
    (hx : isNullish (jsGet x col) = true) (hy : isNullish (jsGet y col) = false) :
    comparator col "asc" x y = -1 := by
  simp [comparator, hx, hy]

/-- The ascending comparator sends a non-nullish cell after a nullish
one. -/
theorem comparator_asc_null_second (col : String) (x y : Row)
    (hx : isNullish (jsGet x col) = false) (hy : isNullish (jsGet y col) = true) :
    comparator col "asc" x y = 1 := by
  simp [comparator, hx, hy]

/-- The descending comparator sends a nullish cell after a non-nullish
one. -/
theorem comparator_desc_null_second (col : String) (x y : Row)
    (hx : isNullish (jsGet x col) = true) (hy : isNullish (jsGet y col) = false) :
    comparator col "desc" x y = 1 := by
  simp [comparator, hx, hy]

/-- The descending comparator sends a non-nullish cell before a nullish
one. -/
theorem comparator_desc_null_first (col : String) (x y : Row)
    (hx : isNullish (jsGet x col) = false) (hy : isNullish (jsGet y col) = true) :
    comparator col "desc" x y = -1 := by
  simp [comparator, hx, hy]

/-- C2 counterexample: with ascending direction the row whose sort-cell
is null is placed before the row with a non-null cell, so nulls do not
sort last regardless of direction. -/
theorem asc_sort_puts_null_first :
    sortData [[("x", JSVal.vnum 1)], [("x", JSVal.vnull)]] "x" "asc"
      = [[("x", JSVal.vnull)], [("x", JSVal.vnum 1)]] ∧
    isNullish (jsGet [("x", JSVal.vnull)] "x") = true ∧
    isNullish (jsGet [("x", JSVal.vnum 1)] "x") = false := by
  decide

/-- C2 amended: for every designated sort column, sortData places the
rows with nullish sort-cells before all others when the direction is
asc, and after all others when the direction is desc. -/
theorem sortData_null_placement (data : List Row) (col : String) (h : col ≠ "") :
    pFirst (fun r => isNullish (jsGet r col)) (sortData data col "asc") ∧
    pFirst (fun r => !isNullish (jsGet r col)) (sortData data col "desc") := by
  have hcol : (col == "") = false := by
    simpa [beq_iff_eq] using h
  constructor
  · rw [sortData, hcol, if_neg Bool.false_ne_true]
    refine stableSort_pFirst _ _ ?_ ?_ data
    · intro x y hx hy
      simp only [decide_eq_true_eq]
      rw [comparator_asc_null_first col x y hx hy]
      decide
    · intro x y hx hy
      simp only [decide_eq_false_iff_not, not_le]
      rw [comparator_asc_null_second col x y hx hy]
      decide
  · rw [sortData, hcol, if_neg Bool.false_ne_true]
    refine stableSort_pFirst _ _ ?_ ?_ data
    · intro x y hx hy
      have hx2 : isNullish (jsGet x col) = false := by
        revert hx; cases isNullish (jsGet x col) <;> simp
      have hy2 : isNullish (jsGet y col) = true := by
        revert hy; cases isNullish (jsGet y col) <;> simp
      simp only [decide_eq_true_eq]
      rw [comparator_desc_null_first col x y hx2 hy2]
      decide
    · intro x y hx hy
      have hx2 : isNullish (jsGet x col) = true := by
        revert hx; cases isNullish (jsGet x col) <;> simp
      have hy2 : isNullish (jsGet y col) = false := by
        revert hy; cases isNullish (jsGet y col) <;> simp
      simp only [decide_eq_false_iff_not, not_le]
      rw [comparator_desc_null_second col x y hx2 hy2]
      decide

/-- Witness for the amended C2 on a concrete two-row dataset. -/
theorem sortData_null_placement_witness :
    pFirst (fun r => isNullish (jsGet r "x"))
      (sortData [[("x", JSVal.vnum 1)], [("x", JSVal.vnull)]] "x" "asc") ∧
    pFirst (fun r => !isNullish (jsGet r "x"))
      (sortData [[("x", JSVal.vnum 1)], [("x", JSVal.vnull)]] "x" "desc") :=
  sortData_null_placement [[("x", JSVal.vnum 1)], [("x", JSVal.vnull)]] "x" (by decide)

end DSApp

namespace DSApp

/-- Inserting an element produces a permutation of consing it. -/
theorem insertLe_perm {α : Type} (le : α → α → Bool) (x : α) :
    ∀ l : List α, (insertLe le x l).Perm (x :: l) := by
  intro l
  induction l with
  | nil => exact List.Perm.refl _
  | cons y ys ih =>
    rw [insertLe]
    by_cases hle : le x y = true
    · rw [if_pos hle]
    · rw [if_neg hle]
      exact (ih.cons y).trans (List.Perm.swap x y ys)

/-- The stable sort permutes its input. -/
theorem stableSort_perm {α : Type} (le : α → α → Bool) :
    ∀ l : List α, (stableSort le l).Perm l := by
  intro l
  induction l with
  | nil => exact List.Perm.refl _
  | cons x xs ih =>
    rw [stableSort]
    exact (insertLe_perm le x (stableSort le xs)).trans (ih.cons x)

/-- C9: none of the query operations mutates the stored row array.
Each call is modelled as a state transformer whose first component is
the callers array after the call: sortData sorts the spread copy, and
filter and slice allocate fresh arrays, so the input array is unchanged
in each case; the sorted view is a permutation of the input, produced
from the copy. -/
theorem query_ops_preserve_input (data : List Row) (gf : String)
    (cf : List (String × String)) (col dir : String) (page size : Nat) :
    (sortDataCall data col dir).1 = data ∧
    (filterDataSimpleCall data gf cf).1 = data ∧
    (paginateDataCall data page size).1 = data ∧
    ((sortDataCall data col dir).2).Perm data := by
  refine ⟨?_, rfl, rfl, ?_⟩
  · unfold sortDataCall
    by_cases h : (col == "") = true
    · rw [if_pos h]
    · rw [if_neg h]
  · unfold sortDataCall
    by_cases h : (col == "") = true
    · rw [if_pos h]
    · rw [if_neg h]
      exact stableSort_perm _ data

/-- A page never exceeds the requested size. -/
theorem paginateData_length_le (data : List Row) (page size : Nat) :
    (paginateData data page size).length ≤ size := by
  unfold paginateData
  rw [List.length_take]
  exact Nat.min_le_left _ _

/-- The filtered row count is at most ceil-of-quotient pages of rows. -/
theorem le_totalPagesCalc_mul (t p : Nat) (hp : 1 ≤ p) :
    t ≤ totalPagesCalc t p * p := by
  have hp0 : (0 : ℚ) < (p : ℚ) := by exact_mod_cast hp
  have h := Nat.le_ceil ((t : ℚ) / (p : ℚ))
  rw [div_le_iff₀ hp0] at h
  have h2 : (t : ℚ) ≤ ((totalPagesCalc t p * p : ℕ) : ℚ) := by
    push_cast
    exact h
  exact_mod_cast h2

/-- C4: for T filtered rows and page size P at least 1, the reported
total page count is the ceiling of T over P, every requested page holds
at most P rows, requesting page total_pages + 1 yields the empty row
set, and the reported post-filter total of that boundary request is
still T.  All four operations are total, so no error can arise. -/
theorem pagination_boundary (parsed data : List Row) (page size : Nat)
    (hs : 1 ≤ size) (_hp : 1 ≤ page) :
    (mkTableInfo parsed data page size).totalPages
      = ⌈(data.length : ℚ) / (size : ℚ)⌉₊ ∧
    (paginateData data page size).length ≤ size ∧
    paginateData data ((mkTableInfo parsed data page size).totalPages + 1) size = [] ∧
    (mkTableInfo parsed data
      ((mkTableInfo parsed data page size).totalPages + 1) size).filteredRows
      = data.length := by
  refine ⟨rfl, paginateData_length_le data page size, ?_, rfl⟩
  show paginateData data (totalPagesCalc data.length size + 1) size = []
  unfold paginateData
  rw [Nat.add_sub_cancel]
  have hdrop : data.drop (totalPagesCalc data.length size * size) = [] := by
    refine List.drop_eq_nil_iff.2 ?_
    exact le_totalPagesCalc_mul data.length size hs
  rw [hdrop]
  exact List.take_nil

/-- Witness for C4 on a three-row dataset with page size 2. -/
theorem pagination_boundary_witness :
    (mkTableInfo [[("a", JSVal.vstr "1")]]
      [[("a", JSVal.vstr "1")], [("a", JSVal.vstr "2")], [("a", JSVal.vstr "3")]]
      1 2).totalPages = ⌈((3 : Nat) : ℚ) / ((2 : Nat) : ℚ)⌉₊ ∧
    (paginateData
      [[("a", JSVal.vstr "1")], [("a", JSVal.vstr "2")], [("a", JSVal.vstr "3")]]
      1 2).length ≤ 2 ∧
    paginateData
      [[("a", JSVal.vstr "1")], [("a", JSVal.vstr "2")], [("a", JSVal.vstr "3")]]
      ((mkTableInfo [[("a", JSVal.vstr "1")]]
        [[("a", JSVal.vstr "1")], [("a", JSVal.vstr "2")], [("a", JSVal.vstr "3")]]
        1 2).totalPages + 1) 2 = [] ∧
    (mkTableInfo [[("a", JSVal.vstr "1")]]
      [[("a", JSVal.vstr "1")], [("a", JSVal.vstr "2")], [("a", JSVal.vstr "3")]]
      ((mkTableInfo [[("a", JSVal.vstr "1")]]
        [[("a", JSVal.vstr "1")], [("a", JSVal.vstr "2")], [("a", JSVal.vstr "3")]]
        1 2).totalPages + 1) 2).filteredRows = 3 :=
  pagination_boundary [[("a", JSVal.vstr "1")]]
    [[("a", JSVal.vstr "1")], [("a", JSVal.vstr "2")], [("a", JSVal.vstr "3")]]
    1 2 (by decide) (by decide)

end DSApp

namespace DSApp

/-- Reading a property of a cons object. -/
theorem jsGet_cons (e : String × JSVal) (l : Row) (k : String) :
    jsGet (e :: l) k = if (e.1 == k) = true then e.2 else jsGet l k := by
  by_cases h : (e.1 == k) = true
  · rw [if_pos h]
    unfold jsGet
    have hf : List.find? (fun e2 => e2.1 == k) (e :: l) = some e :=
      List.find?_cons_of_pos l h
    rw [hf]
  · rw [if_neg h]
    unfold jsGet
    have hf : List.find? (fun e2 => e2.1 == k) (e :: l)
        = List.find? (fun e2 => e2.1 == k) l :=
      List.find?_cons_of_neg l (by simpa using h)
    rw [hf]

/-- Assignment makes the assigned key read the assigned value. -/
theorem setEntry_get_same (k : String) (v : JSVal) :
    ∀ row : Row, jsGet (setEntry k v row) k = v := by
  intro row
  induction row with
  | nil =>
    rw [setEntry, jsGet_cons]
    simp
  | cons e rest ih =>
    rw [setEntry]
    by_cases h : (e.1 == k) = true
    · rw [if_pos h, jsGet_cons]
      simp
    · rw [if_neg h, jsGet_cons, if_neg h, ih]

/-- Assignment leaves every other key unchanged. -/
theorem setEntry_get_other (k k2 : String) (v : JSVal) (hne : k2 ≠ k) :
    ∀ row : Row, jsGet (setEntry k v row) k2 = jsGet row k2 := by
  intro row
  have hkk : (k == k2) = false := by
    simp [beq_iff_eq]
    intro h
    exact hne h.symm
  induction row with
  | nil =>
    rw [setEntry, jsGet_cons]
    rw [show ((k, v).1 == k2) = false from hkk, if_neg Bool.false_ne_true]
  | cons e rest ih =>
    rw [setEntry]
    by_cases h : (e.1 == k) = true
    · have he : e.1 = k := by simpa [beq_iff_eq] using h
      rw [if_pos h, jsGet_cons, jsGet_cons]
      rw [show ((k, v).1 == k2) = false from hkk, if_neg Bool.false_ne_true]
      rw [he, hkk, if_neg Bool.false_ne_true]
    · rw [if_neg h, jsGet_cons, jsGet_cons]
      by_cases h2 : (e.1 == k2) = true
      · rw [if_pos h2, if_pos h2]
      · rw [if_neg h2, if_neg h2, ih]

/-- The keys after an assignment are the old keys together with the
assigned key. -/
theorem setEntry_keys_mem (k k2 : String) (v : JSVal) :
    ∀ row : Row,
      (k2 ∈ (setEntry k v row).map Prod.fst) ↔ (k2 ∈ row.map Prod.fst ∨ k2 = k) := by
  intro row
  induction row with
  | nil => simp [setEntry]
  | cons e rest ih =>
    rw [setEntry]
    by_cases h : (e.1 == k) = true
    · have he : e.1 = k := by simpa [beq_iff_eq] using h
      rw [if_pos h]
      simp [he]
      tauto
    · rw [if_neg h]
      simp [ih]
      tauto

/-- Assignment preserves distinctness of keys. -/
theorem setEntry_keys_nodup (k : String) (v : JSVal) :
    ∀ row : Row, (row.map Prod.fst).Nodup → ((setEntry k v row).map Prod.fst).Nodup := by
  intro row
  induction row with
  | nil =>
    intro _
    simp [setEntry]
  | cons e rest ih =>
    intro hnd
    rw [List.map_cons, List.nodup_cons] at hnd
    rw [setEntry]
    by_cases h : (e.1 == k) = true
    · have he : e.1 = k := by simpa [beq_iff_eq] using h
      rw [if_pos h, List.map_cons, List.nodup_cons]
      exact ⟨by rw [← he]; exact hnd.1, hnd.2⟩
    · rw [if_neg h, List.map_cons, List.nodup_cons]
      refine ⟨?_, ih hnd.2⟩
      intro hmem
      rcases (setEntry_keys_mem k e.1 v rest).1 hmem with h2 | h2
      · exact hnd.1 h2
      · exact h (by simp [beq_iff_eq, h2])

/-- Every entry after an assignment is an old entry or the assigned
pair. -/
theorem setEntry_mem_src (k : String) (v : JSVal) :
    ∀ (row : Row) (e : String × JSVal), e ∈ setEntry k v row → e ∈ row ∨ e = (k, v) := by
  intro row
  induction row with
  | nil =>
    intro e he
    rw [setEntry] at he
    right
    simpa using he
  | cons e0 rest ih =>
    intro e he
    rw [setEntry] at he
    by_cases h : (e0.1 == k) = true
    · rw [if_pos h] at he
      rcases List.mem_cons.1 he with rfl | h2
      · right; rfl
      · left; exact List.mem_cons_of_mem _ h2
    · rw [if_neg h] at he
      rcases List.mem_cons.1 he with rfl | h2
      · left; exact List.mem_cons_self _ _
      · rcases ih e h2 with h3 | h3
        · left; exact List.mem_cons_of_mem _ h3
        · right; exact h3

/-- The keys of a built row are the keys of the initial object together
with the processed headers. -/
theorem buildRowAux_keys_mem (vs : List String) :
    ∀ (hs : List String) (j : Nat) (row : Row) (k : String),
      (k ∈ (buildRowAux vs j hs row).map Prod.fst) ↔
        (k ∈ row.map Prod.fst ∨ k ∈ hs) := by
  intro hs
  induction hs with
  | nil =>
    intro j row k
    rw [buildRowAux]
    simp
  | cons h t ih =>
    intro j row k
    rw [buildRowAux, ih, setEntry_keys_mem]
    simp [List.mem_cons]
    tauto

/-- Building a row preserves distinctness of keys. -/
theorem buildRowAux_keys_nodup (vs : List String) :
    ∀ (hs : List String) (j : Nat) (row : Row),
      (row.map Prod.fst).Nodup → ((buildRowAux vs j hs row).map Prod.fst).Nodup := by
  intro hs
  induction hs with
  | nil =>
    intro j row hnd
    rw [buildRowAux]
    exact hnd
  | cons h t ih =>
    intro j row hnd
    rw [buildRowAux]
    exact ih (j + 1) _ (setEntry_keys_nodup h (fieldVal vs j) row hnd)

/-- Headers not among the processed ones read as in the initial
object. -/
theorem buildRowAux_get_notmem (vs : List String) :
    ∀ (hs : List String) (j : Nat) (row : Row) (k : String), k ∉ hs →
      jsGet (buildRowAux vs j hs row) k = jsGet row k := by
  intro hs
  induction hs with
  | nil =>
    intro j row k _
    rw [buildRowAux]
  | cons h t ih =>
    intro j row k hk
    rw [List.mem_cons] at hk
    push_neg at hk
    rw [buildRowAux, ih (j + 1) _ k hk.2]
    exact setEntry_get_other h k (fieldVal vs j) hk.1 row

/-- With pairwise distinct headers, the header at position i reads the
field value at the corresponding shifted index. -/
theorem buildRowAux_get_nodup (vs : List String) :
    ∀ (hs : List String), hs.Nodup →
      ∀ (j : Nat) (row : Row) (i : Nat) (hi : i < hs.length),
        jsGet (buildRowAux vs j hs row) (hs.get ⟨i, hi⟩) = fieldVal vs (j + i) := by
  intro hs
  induction hs with
  | nil =>
    intro _ j row i hi
    exact absurd hi (Nat.not_lt_zero i)
  | cons h t ih =>
    intro hnd j row i hi
    rw [List.nodup_cons] at hnd
    cases i with
    | zero =>
      rw [buildRowAux]
      show jsGet (buildRowAux vs (j + 1) t (setEntry h (fieldVal vs j) row)) h
        = fieldVal vs (j + 0)
      rw [buildRowAux_get_notmem vs t (j + 1) _ h hnd.1, setEntry_get_same, Nat.add_zero]
    | succ i2 =>
      rw [buildRowAux]
      show jsGet (buildRowAux vs (j + 1) t (setEntry h (fieldVal vs j) row))
          (t.get ⟨i2, Nat.lt_of_succ_lt_succ hi⟩) = fieldVal vs (j + (i2 + 1))
      rw [ih hnd.2 (j + 1) _ i2 (Nat.lt_of_succ_lt_succ hi)]
      congr 1
      omega

/-- Every entry of a built row comes from the initial object or holds
the field value of one processed header index. -/
theorem buildRowAux_snd (vs : List String) :
    ∀ (hs : List String) (j : Nat) (row : Row) (e : String × JSVal),
      e ∈ buildRowAux vs j hs row →
        e ∈ row ∨ ∃ i2, j ≤ i2 ∧ i2 < j + hs.length ∧ e.2 = fieldVal vs i2 := by
  intro hs
  induction hs with
  | nil =>
    intro j row e he
    rw [buildRowAux] at he
    exact Or.inl he
  | cons h t ih =>
    intro j row e he
    rw [buildRowAux] at he
    rcases ih (j + 1) _ e he with h1 | ⟨i2, hle, hlt, hval⟩
    · rcases setEntry_mem_src h (fieldVal vs j) row e h1 with h2 | h2
      · exact Or.inl h2
      · refine Or.inr ⟨j, Nat.le_refl j, ?_, by rw [h2]⟩
        simp only [List.length_cons]
        omega
    · refine Or.inr ⟨i2, ?_, ?_, hval⟩
      · omega
      · simp only [List.length_cons] at hlt ⊢
        omega

/-- Every cell of a parsed row is the field value of some header index
below the header count: fields beyond the header count are never
read. -/
theorem parseRow_cells (headers : List String) (line : String) :
    ∀ e ∈ parseRow headers line,
      ∃ i, i < headers.length ∧ e.2 = fieldVal (splitOnComma line) i := by
  intro e he
  rcases buildRowAux_snd (splitOnComma line) headers 0 [] e he with h | ⟨i, _, hlt, hval⟩
  · exact absurd h (List.not_mem_nil e)
  · exact ⟨i, by simpa using hlt, hval⟩

/-- A field value is a trimmed string or null. -/
theorem fieldVal_cases (vs : List String) (i : Nat) :
    (∃ u, fieldVal vs i = JSVal.vstr u) ∨ fieldVal vs i = JSVal.vnull := by
  unfold fieldVal
  cases vs[i]? with
  | some v => exact Or.inl ⟨jsTrim v, rfl⟩
  | none => exact Or.inr rfl

/-- C1 counterexample: a data row with more fields than the header
loses the excess field: with headers a,b the row 1,2,3 parses with b
holding 2, not the concatenation 2,3 of the excess into the last
declared column. -/
theorem excess_fields_dropped :
    parseCSVContent "a,b\n1,2,3"
      = [[("a", JSVal.vstr "1"), ("b", JSVal.vstr "2")]] ∧
    jsGet ((parseCSVContent "a,b\n1,2,3").headD []) "b" ≠ JSVal.vstr "2,3" := by
  decide

/-- C1 amended: the parsed row object has pairwise distinct property
names, which are exactly the names occurring in the header (a duplicate
header overwrites the earlier property, per JavaScript assignment);
every cell holds the field value of some header index below the header
count, so fields of the line beyond the header count are never read
(silently dropped, not concatenated into the last column); and when the
header names are pairwise distinct, every header whose index is at
least the field count of the line reads null (right-padding). -/
theorem row_pad_and_drop (headers : List String) (line : String) :
    ((parseRow headers line).map Prod.fst).Nodup ∧
    (∀ k, k ∈ (parseRow headers line).map Prod.fst ↔ k ∈ headers) ∧
    (∀ e ∈ parseRow headers line,
      ∃ i, i < headers.length ∧ e.2 = fieldVal (splitOnComma line) i) ∧
    (headers.Nodup → ∀ (i : Nat) (hi : i < headers.length),
      (splitOnComma line).length ≤ i →
      jsGet (parseRow headers line) (headers.get ⟨i, hi⟩) = JSVal.vnull) := by
  refine ⟨?_, ?_, parseRow_cells headers line, ?_⟩
  · exact buildRowAux_keys_nodup (splitOnComma line) headers 0 [] List.nodup_nil
  · intro k
    rw [parseRow, buildRowAux_keys_mem]
    simp
  · intro hnd i hi hlen
    rw [parseRow, buildRowAux_get_nodup (splitOnComma line) headers hnd 0 [] i hi,
      Nat.zero_add]
    unfold fieldVal
    rw [List.getElem?_eq_none hlen]

/-- Witness for the amended C1: headers a,b against the one-field line
1 give a row with distinct keys drawn from the header whose second
declared column reads null. -/
theorem row_pad_and_drop_witness :
    ((parseRow ["a", "b"] "1").map Prod.fst).Nodup ∧
    ("b" ∈ (parseRow ["a", "b"] "1").map Prod.fst ↔ "b" ∈ ["a", "b"]) ∧
    jsGet (parseRow ["a", "b"] "1") "b" = JSVal.vnull :=
  ⟨(row_pad_and_drop ["a", "b"] "1").1,
    (row_pad_and_drop ["a", "b"] "1").2.1 "b",
    (row_pad_and_drop ["a", "b"] "1").2.2.2 (by decide) 1 (by decide) (by decide)⟩

/-- Splitting never produces an empty piece list. -/
theorem splitOnChar_ne_nil (sep : Char) :
    ∀ l : List Char, splitOnChar sep l ≠ [] := by
  intro l
  cases l with
  | nil => exact fun h => List.noConfusion h
  | cons c cs =>
    rw [splitOnChar]
    cases h : splitOnChar sep cs with
    | nil => exact fun h2 => List.noConfusion h2
    | cons r rs =>
      show (if (c == sep) = true then [] :: r :: rs else (c :: r) :: rs) ≠ []
      by_cases hc : (c == sep) = true
      · rw [if_pos hc]; exact fun h2 => List.noConfusion h2
      · rw [if_neg hc]; exact fun h2 => List.noConfusion h2

/-- Prepending a character to the first piece prepends it to the
join. -/
theorem joinOnChar_cons (sep c : Char) (x : List Char) (rest : List (List Char)) :
    joinOnChar sep ((c :: x) :: rest) = c :: joinOnChar sep (x :: rest) := by
  cases rest <;> rfl

/-- C7 counterexample: an RFC 4180 quoted field containing the
delimiter is split at the interior comma and keeps its quote characters:
the quoted field x,y does not survive as one value. -/
theorem quoted_field_split :
    parseCSVContent "a,b\n\"x,y\",z"
      = [[("a", JSVal.vstr "\"x"), ("b", JSVal.vstr "y\"")]] ∧
    jsGet ((parseCSVContent "a,b\n\"x,y\",z").headD []) "a" ≠ JSVal.vstr "x,y" := by
  decide

/-- C7 amended: line splitting is quote-blind: every occurrence of the
delimiter is a field boundary, so the field count is always the
delimiter count plus one, and joining the fields back with the
delimiter restores the line verbatim, quote characters included (no
quote interpretation or unescaping takes place). -/
theorem split_is_quote_blind (sep : Char) (l : List Char) :
    (splitOnChar sep l).length = l.count sep + 1 ∧
    joinOnChar sep (splitOnChar sep l) = l := by
  induction l with
  | nil => exact ⟨rfl, rfl⟩
  | cons c cs ih =>
    obtain ⟨ihlen, ihjoin⟩ := ih
    cases h : splitOnChar sep cs with
    | nil => exact absurd h (splitOnChar_ne_nil sep cs)
    | cons r rs =>
      rw [h] at ihlen ihjoin
      constructor
      · rw [splitOnChar, h]
        show (if (c == sep) = true then [] :: r :: rs else (c :: r) :: rs).length
          = List.count sep (c :: cs) + 1
        by_cases hc : (c == sep) = true
        · rw [if_pos hc, List.count_cons]
          simp only [hc, if_pos]
          simp only [List.length_cons] at ihlen ⊢
          omega
        · rw [if_neg hc, List.count_cons]
          rw [if_neg hc]
          simp only [List.length_cons] at ihlen ⊢
          omega
      · rw [splitOnChar, h]
        show joinOnChar sep (if (c == sep) = true then [] :: r :: rs else (c :: r) :: rs)
          = c :: cs
        by_cases hc : (c == sep) = true
        · rw [if_pos hc]
          have hcs : c = sep := by simpa [beq_iff_eq] using hc
          show joinOnChar sep ([] :: r :: rs) = c :: cs
          rw [joinOnChar, ihjoin, hcs]
          rfl
        · rw [if_neg hc, joinOnChar_cons, ihjoin]

/-- The plotly row builder produces one row per data line. -/
theorem plotlyRowsAux_length (ids : List String) :
    ∀ (i : Nat) (lines : List String),
      (plotlyRowsAux ids i lines).length = lines.length := by
  intro i lines
  induction lines generalizing i with
  | nil => rfl
  | cons l rest ih =>
    rw [plotlyRowsAux, List.length_cons, List.length_cons, ih]

/-- C6 counterexample: for the content h, newline, a, newline (a header
line, one data line and a trailing newline), the recorded quality
report counts 2 valid rows while only 1 data row is loaded into the
store. -/
theorem quality_report_drifts :
    validRows "h\na\n" = 2 ∧
    (plotlyParsedData "h\na\n" ["h"]).length = 1 ∧
    validRows "h\na\n" ≠ (plotlyParsedData "h\na\n" ["h"]).length := by
  decide

/-- C6 amended: the recorded valid-row count is the newline-segment
count minus one; whenever no split segment is blank (no trailing
newline and no blank line), it equals the number of loaded data
rows. -/
theorem quality_consistent_without_blank_lines (content : String)
    (ids : List String) (h : ∀ l ∈ splitNL content, jsTrim l ≠ "") :
    validRows content = (plotlyParsedData content ids).length := by
  unfold plotlyParsedData validRows contentLines
  rw [plotlyRowsAux_length, List.length_drop]
  have hfil : (splitNL content).filter (fun l => jsTrim l != "") = splitNL content := by
    refine List.filter_eq_self.2 ?_
    intro a ha
    simpa [bne_iff_ne] using h a ha
  rw [hfil]

/-- Witness for the amended C6: content with no trailing newline. -/
theorem quality_consistent_without_blank_lines_witness :
    validRows "h\na" = (plotlyParsedData "h\na" ["h"]).length :=
  quality_consistent_without_blank_lines "h\na" ["h"] (by decide)

end DSApp

namespace DSApp

/-- Every cell of every row parseCSVContent produces is a string or
null; in particular no cell is a JavaScript number. -/
theorem parseCSVContent_cells (content : String) :
    ∀ row ∈ parseCSVContent content, ∀ e ∈ row,
      (∃ u, e.2 = JSVal.vstr u) ∨ e.2 = JSVal.vnull := by
  intro row hrow e he
  simp only [parseCSVContent] at hrow
  split at hrow
  · exact absurd hrow (List.not_mem_nil row)
  · obtain ⟨line, hline, heq⟩ := List.mem_map.1 hrow
    rw [← heq] at he
    obtain ⟨i, _, hval⟩ := parseRow_cells _ line e he
    rw [hval]
    exact fieldVal_cases _ i

/-- On two rows whose sort-cells are strings, the sortData comparator
is exactly localeCompare of those strings (negated for descending),
never a numeric comparison. -/
theorem comparator_on_strings (col : String) (a b : Row) (s t : String)
    (ha : jsGet a col = JSVal.vstr s) (hb : jsGet b col = JSVal.vstr t) :
    comparator col "asc" a b = localeCompare s t ∧
    comparator col "desc" a b = -localeCompare s t := by
  constructor <;> simp [comparator, ha, hb, cmpVals, jsToString, isNullish]

/-- C8 counterexample: the column of the file n, 9, 10 infers as
Integer under the specification inference rules, yet ascending sort
places 10 before 9, comparing the string cells lexicographically. -/
theorem numeric_column_sorts_lexicographically :
    inferColType ["9", "10"] = ColType.integer ∧
    sortData (parseCSVContent "n\n9\n10") "n" "asc"
      = [[("n", JSVal.vstr "10")], [("n", JSVal.vstr "9")]] := by
  decide

/-- C8 amended: every cell the frontend CSV parser loads is a string
or null, never a JavaScript number, so the runtime type test of the
sortData comparator always falls through to localeCompare: sorting any
column of a parsed dataset compares lexicographically regardless of the
inferred column type. -/
theorem parsed_sort_is_lexicographic (content : String) (col : String)
    (a b : Row) (s t : String)
    (ha : jsGet a col = JSVal.vstr s) (hb : jsGet b col = JSVal.vstr t) :
    (∀ row ∈ parseCSVContent content, ∀ e ∈ row,
      (∃ u, e.2 = JSVal.vstr u) ∨ e.2 = JSVal.vnull) ∧
    comparator col "asc" a b = localeCompare s t ∧
    comparator col "desc" a b = -localeCompare s t :=
  ⟨parseCSVContent_cells content,
    (comparator_on_strings col a b s t ha hb).1,
    (comparator_on_strings col a b s t ha hb).2⟩

/-- Witness for the amended C8 on the rows of the file n, 9, 10. -/
theorem parsed_sort_is_lexicographic_witness :
    (∀ row ∈ parseCSVContent "n\n9\n10", ∀ e ∈ row,
      (∃ u, e.2 = JSVal.vstr u) ∨ e.2 = JSVal.vnull) ∧
    comparator "n" "asc" [("n", JSVal.vstr "9")] [("n", JSVal.vstr "10")]
      = localeCompare "9" "10" ∧
    comparator "n" "desc" [("n", JSVal.vstr "9")] [("n", JSVal.vstr "10")]
      = -localeCompare "9" "10" :=
  parsed_sort_is_lexicographic "n\n9\n10" "n"
    [("n", JSVal.vstr "9")] [("n", JSVal.vstr "10")] "9" "10"
    (by decide) (by decide)

end DSApp
